import Mathlib

/-!
Shallow embedding of `src/backend/function-node.js` (class `FunctionNode`)
of the gpu.js fork under verification, together with proofs about the
claims of the specification.

Conventions of the embedding:
* JavaScript numbers appearing as literal values are modelled by `JsNum`
  (a finite rational, or one of the three non-finite values); the file
  only ever inspects them through the predicates the source uses
  (`Number.isInteger`, finiteness / NaN checks).
* The mutable `this` of the class is threaded explicitly as a
  `FunctionNode` value; handlers that mutate `this.declarations` return
  an updated `FunctionNode`.
* JavaScript exceptions are modelled with `Except JsError`; the
  `astErrorOutput` formatter of the source is embedded separately (it
  only formats the message string), walker errors carry the raw message
  and the offending node.
* Recursive traversals take an explicit fuel argument (`Nat`) that every
  recursive call decreases, so all definitions are structurally
  recursive and computable; theorems about runs are stated for every
  fuel through hypotheses of the shape `... = .ok r`.
-/

/-- A JavaScript number as far as this file inspects one: a finite value
(kept as an exact rational) or `Infinity`, `-Infinity`, `NaN`. -/
inductive JsNum where
  | val (q : Rat)
  | posInf
  | negInf
  | nan
deriving DecidableEq, Repr

/-- Embeds `Number.isInteger(v)` of JavaScript on a `JsNum`. -/
def isIntegerJs : JsNum → Bool
  | .val q => q.den == 1
  | _ => false

/-- The test `v > -Infinity && v < Infinity && !isNaN(v)` used by
`getDependencies` on literal values: true exactly for finite numbers. -/
def jsFinite : JsNum → Bool
  | .val _ => true
  | _ => false

/-- The acorn AST node kinds dispatched by `FunctionNode.astGeneric`,
restricted to the fields the source file reads.  Node kinds whose
contents the file never inspects (`ForStatement`, `WhileStatement`,
`DoWhileStatement`, `IfStatement`, ...) keep only the children that no
code path of this file reaches; the base-class handlers for them are
no-ops and neither `getType` nor `getDependencies` recurses into them. -/
inductive AST where
  | Literal (value : JsNum)
  | Identifier (name : String)
  | ThisExpression
  | MemberExpression (object property : AST) (computed : Bool)
  | CallExpression (callee : AST) (arguments : List AST)
  | BinaryExpression (operator : String) (left right : AST)
  | LogicalExpression (operator : String) (left right : AST)
  | UnaryExpression (operator : String) (prefixed : Bool) (argument : AST)
  | UpdateExpression (operator : String) (prefixed : Bool) (argument : AST)
  | ConditionalExpression (test consequent alternate : AST)
  | SequenceExpression (expressions : List AST)
  | ArrayExpression (elements : List AST)
  | AssignmentExpression (operator : String) (left right : AST)
  | ExpressionStatement (expression : AST)
  | EmptyStatement
  | DebuggerStatement
  | BlockStatement (body : List AST)
  | ReturnStatement (argument : Option AST)
  | IfStatement
  | BreakStatement
  | ContinueStatement
  | ForStatement
  | WhileStatement
  | DoWhileStatement
  | FunctionDeclaration (body : AST)
  | FunctionExpression (body : AST)
  | VariableDeclaration (declarations : List AST) (kind : String)
  | VariableDeclarator (id : AST) (init : Option AST)
deriving Repr

/-- The `type` string of an acorn node, as interpolated into the error
messages of the source. -/
def AST.typeName : AST → String
  | .Literal _ => "Literal"
  | .Identifier _ => "Identifier"
  | .ThisExpression => "ThisExpression"
  | .MemberExpression .. => "MemberExpression"
  | .CallExpression .. => "CallExpression"
  | .BinaryExpression .. => "BinaryExpression"
  | .LogicalExpression .. => "LogicalExpression"
  | .UnaryExpression .. => "UnaryExpression"
  | .UpdateExpression .. => "UpdateExpression"
  | .ConditionalExpression .. => "ConditionalExpression"
  | .SequenceExpression _ => "SequenceExpression"
  | .ArrayExpression _ => "ArrayExpression"
  | .AssignmentExpression .. => "AssignmentExpression"
  | .ExpressionStatement _ => "ExpressionStatement"
  | .EmptyStatement => "EmptyStatement"
  | .DebuggerStatement => "DebuggerStatement"
  | .BlockStatement _ => "BlockStatement"
  | .ReturnStatement _ => "ReturnStatement"
  | .IfStatement => "IfStatement"
  | .BreakStatement => "BreakStatement"
  | .ContinueStatement => "ContinueStatement"
  | .ForStatement => "ForStatement"
  | .WhileStatement => "WhileStatement"
  | .DoWhileStatement => "DoWhileStatement"
  | .FunctionDeclaration _ => "FunctionDeclaration"
  | .FunctionExpression _ => "FunctionExpression"
  | .VariableDeclaration .. => "VariableDeclaration"
  | .VariableDeclarator .. => "VariableDeclarator"

/-- Embeds `ast.name`: only `Identifier` nodes carry a `name` property. -/
def AST.nameOf : AST → Option String
  | .Identifier n => some n
  | _ => none

/-- Embeds `ast.init` of a declarator; `undefined` (here `none`) on any other
node, matching the truthiness test `!declarations[0].init`. -/
def AST.initOf : AST → Option AST
  | .VariableDeclarator _ i => i
  | _ => none

/-- Embeds `declaration.id.name` of a declarator (`none` when the node is not a
declarator or its id carries no `name`). -/
def AST.idNameOf : AST → Option String
  | .VariableDeclarator id _ => id.nameOf
  | _ => none

/-- Embeds `ast.callee.name`-style access: the name of a call callee when the
callee is an identifier. -/
def AST.calleeNameOf : AST → Option String
  | .CallExpression callee _ => callee.nameOf
  | _ => none

/-- One element of the `retArr` output buffer.  `selfRef` models the
first argument of the source line `retArr.push(retArr, result.join(','))`:
the buffer array itself is pushed as an element. -/
inductive Frag where
  | str (s : String)
  | selfRef
deriving DecidableEq, Repr

/-- Embeds `join('')` of a buffer.  A `selfRef` element contributes the empty
string (JavaScript engines yield the empty string for the re-entrant
join of a cyclic array). -/
def fragStr : Frag → String
  | .str s => s
  | .selfRef => ""

/-- A dependency record as pushed by `getDependencies`:
`{origin, name?, value?, isSafe}`. -/
structure Dependency where
  origin : String
  name : Option String := none
  value : Option JsNum := none
  isSafe : Bool
deriving DecidableEq, Repr

/-- The JavaScript value held in the `dependencies` field of a stored
declaration record: the dependency array, a string / `undefined`
(`getDependencies` on a member expression returns `details.type`), or
`null` (returned for a missing initializer). -/
inductive StoredDeps where
  | arr (l : List Dependency)
  | str (t : Option String)
  | nullv
deriving DecidableEq, Repr

/-- What a call to `getDependencies` returns (beside the threaded
dependency array): the array itself, `details.type` of a member
expression, or `null`. -/
inductive DepRet where
  | arrSelf
  | str (t : Option String)
  | nullv
deriving DecidableEq, Repr

/-- Converts a `getDependencies` return value, together with the final
state of the threaded array, into the stored JavaScript value. -/
def DepRet.toStored : DepRet → List Dependency → StoredDeps
  | .arrSelf, l => .arr l
  | .str t, _ => .str t
  | .nullv, _ => .nullv

/-- A declaration record frozen into `this.declarations`. -/
structure Declaration where
  type : String
  dependencies : StoredDeps
  isSafe : Bool
deriving DecidableEq, Repr

/-- Embeds `isSafeDependencies`: `dependencies && dependencies.every ?
dependencies.every(d => d.isSafe) : true`.  Only a real array has an
`every` method; a string, `undefined` or `null` value makes the guard
falsy or the method missing, and the source then yields `true`. -/
def isSafeDependencies : StoredDeps → Bool
  | .arr l => l.all (·.isSafe)
  | _ => true

/-- The value kept in the `property` field of a member-expression
descriptor: a property name string (`r`/`g`/`b`/`a` case) or a raw AST
node (`fn()[]` case). -/
inductive PropField where
  | propName (s : String)
  | propNode (a : AST)
deriving Repr

/-- The structured descriptor produced by `getMemberExpressionDetails`. -/
structure Details where
  name : Option String := none
  origin : Option String := none
  signature : String
  type : Option String := none
  xProperty : Option AST := none
  yProperty : Option AST := none
  zProperty : Option AST := none
  property : Option PropField := none
deriving Repr

/-- A thrown JavaScript error.  `astError` is a diagnostic raised through
`this.astErrorOutput(msg, ast)` (the textual formatting of the message is
embedded separately as `astErrorOutput`); `plainError` is a bare
`new Error(...)`; `typeError` models a runtime `TypeError` (property
access on `undefined`/`null`, call of a missing method); `outOfFuel` is
an artefact of the fuel-based embedding and never corresponds to a
source behaviour. -/
inductive JsError where
  | astError (msg : String) (node : AST)
  | plainError (msg : String)
  | typeError (msg : String)
  | outOfFuel
deriving Repr

/-- The parent function node, restricted to the only field of it this
file reads: `parent.calledFunctionsArguments[this.name]` is a list of
per-call argument-binding rows; a row entry is `null` (`some none` here),
absent (`none`, JavaScript `undefined`), or an object whose `type` field
is read (`some (some t)` with `t` the `type`, itself possibly null,
flattened to the stored type string or `none`). -/
structure Parent where
  calledFunctionsArguments : List (String × List (List (Option (Option String)))) := []
deriving DecidableEq, Repr

/-- The state of a `FunctionNode` instance: the public fields the
constructor establishes plus the backend seams the file consumes.
`lookupReturnTypeTable` models the injected `lookupReturnType` callback
as a finite table (`none` = no callback registered); `typeMap` models
the backend-supplied lowered-type map that `astVariableDeclaration`
reads (`typeMap` is a free identifier in the source file; the
specification names it as the backend extension seam). -/
structure FunctionNode where
  source : String := ""
  name : String := ""
  constants : List (String × JsNum) := []
  constantTypes : List (String × String) := []
  isRootKernel : Bool := false
  isSubKernel : Bool := false
  parent : Option Parent := none
  debug : Option Bool := none
  declarations : List (String × Declaration) := []
  states : List String := []
  lookupReturnTypeTable : Option (List (String × String)) := none
  onNestedFunction : Bool := false
  loopMaxIterations : Option Nat := none
  argumentNames : List String := []
  argumentTypes : List String := []
  argumentSizes : List Nat := []
  returnType : String := "Number"
  output : List Nat := []
  typeMap : List (String × String) := []
deriving DecidableEq, Repr

/-- Embeds `get state()`: the top of the traversal-state stack
(`this.states[this.states.length - 1]`, `undefined` on an empty stack). -/
def FunctionNode.state (fn : FunctionNode) : Option String :=
  fn.states.getLast?

/-- Embeds `pushState`. -/
def pushState (state : String) (states : List String) : List String :=
  states ++ [state]

/-- Embeds `popState`: throws unless the top of the stack is the named label,
otherwise pops it.  The stringification of an `undefined` top inside the
template literal yields the text `undefined`. -/
def popState (state : String) (states : List String) : Except String (List String) :=
  if states.getLast? ≠ some state then
    .error ("Cannot popState " ++ state ++ " when in " ++
      (match states.getLast? with
       | some t => t
       | none => "undefined"))
  else
    .ok states.dropLast

/-- Embeds `isState`. -/
def FunctionNode.isState (fn : FunctionNode) (state : String) : Bool :=
  fn.state = some state

/-! ### Helpers from `utils` (a module of this repository not included
under `src/`), modelled from the spec. -/

/-- Whitespace test used by the lightweight scanners. -/
def isWsChar (c : Char) : Bool :=
  c = ' ' ∨ c = '\t' ∨ c = '\n' ∨ c = '\r'

/-- Strip leading and trailing whitespace from a character list. -/
def trimChars (cs : List Char) : List Char :=
  ((cs.dropWhile isWsChar).reverse.dropWhile isWsChar).reverse

/-- Split a character list at commas. -/
def splitComma : List Char → List (List Char)
  | [] => [[]]
  | c :: rest =>
    if c = ',' then [] :: splitComma rest
    else
      match splitComma rest with
      | [] => [[c]]
      | l :: ls => (c :: l) :: ls

/-- Modelled from the spec: `utils.isFunctionString` — the source body is
"recognizable as function text"; modelled as beginning with the keyword
`function`. -/
def isFunctionString (s : String) : Bool :=
  List.isPrefixOf "function".toList s.toList

/-- Modelled from the spec: `utils.getFunctionNameFromString` — extract
the function name "via lightweight scanning": the text between the
`function` keyword and the argument list. -/
def getFunctionNameFromString (s : String) : String :=
  String.mk (trimChars ((s.toList.drop 8).takeWhile (fun c => c ≠ '(')))

/-- Modelled from the spec: `utils.getArgumentNamesFromString` — extract
"the ordered argument names via lightweight scanning": the comma-split
contents of the first parenthesis group. -/
def getArgumentNamesFromString (s : String) : List String :=
  let inner := ((s.toList.dropWhile (fun c => c ≠ '(')).drop 1).takeWhile (fun c => c ≠ ')')
  if trimChars inner = [] then []
  else (splitComma inner).map (fun cs => String.mk (trimChars cs))

/-- Modelled from the spec: `utils.getAstString` — "the offending AST
substring", the slice of the source text covered by the node's
`[start, end)` offsets. -/
def getAstString (source : String) (start stop : Nat) : String :=
  String.mk (((source.toList).drop start).take (stop - start))

/-! ### The error formatter `astErrorOutput` -/

/-- Embeds `leadingSource.split(/\n/)` on a character list: splitting at every
newline, never empty. -/
def splitNl : List Char → List (List Char)
  | [] => [[]]
  | c :: rest =>
    if c = '\n' then [] :: splitNl rest
    else
      match splitNl rest with
      | [] => [[c]]
      | l :: ls => (c :: l) :: ls

/-- The characters after the last newline of a list (the whole list when
it has no newline). -/
def afterLastNl : List Char → List Char
  | [] => []
  | c :: rest =>
    if rest.contains '\n' then afterLastNl rest
    else if c = '\n' then rest
    else c :: rest

/-- Embeds `astErrorOutput(error, ast)` for a textual source, parametrised by
the node's `start`/`end` offsets (the only parts of the node it reads).
The source computes `leadingSource = this.source.substr(ast.start)` —
the text from the node's start offset *to the end of the source* — and
derives the reported line and position from that trailing text. -/
def astErrorOutput (error source : String) (start stop : Nat) : String :=
  let debugString := getAstString source start stop
  let leadingSource := (source.toList).drop start
  let splitLines := splitNl leadingSource
  let lineBefore := splitLines.getLastD []
  error ++ " on line " ++ toString splitLines.length ++ ", position " ++
    toString lineBefore.length ++ ":\n " ++ debugString

/-! ### Type tables and math-intrinsic recognizers -/

/-- The module-level `typeLookupMap` table. -/
def typeLookupMap : String → Option String
  | "Array" => some "Number"
  | "Array(2)" => some "Number"
  | "Array(3)" => some "Number"
  | "Array(4)" => some "Number"
  | "Array2D" => some "Number"
  | "Array3D" => some "Number"
  | "HTMLImage" => some "Array(4)"
  | "HTMLImageArray" => some "Array(4)"
  | "NumberTexture" => some "Number"
  | "ArrayTexture(4)" => some "Array(4)"
  | _ => none

/-- The `mathProperties` list of `isAstMathVariable`. -/
def mathProperties : List String :=
  ["E", "PI", "SQRT2", "SQRT1_2", "LN2", "LN10", "LOG2E", "LOG10E"]

/-- The `mathFunctions` list of `isAstMathFunction`. -/
def mathFunctions : List String :=
  ["abs", "acos", "asin", "atan", "atan2", "ceil", "cos", "exp", "floor",
   "log", "log2", "max", "min", "pow", "random", "round", "sign", "sin",
   "sqrt", "tan"]

/-- Embeds `isAstMathVariable`: a member expression `Math.<p>` with `p` one of
the math constants. -/
def isAstMathVariable : AST → Bool
  | .MemberExpression (.Identifier o) (.Identifier p) _ =>
    o == "Math" && mathProperties.contains p
  | _ => false

/-- Embeds `isAstMathFunction`: a **call** expression whose callee is
`Math.<f>` with `f` one of the math functions.  Note the first conjunct
`ast.type === 'CallExpression'`: the predicate is false on every
member-expression node. -/
def isAstMathFunction : AST → Bool
  | .CallExpression (.MemberExpression (.Identifier o) (.Identifier p) _) _ =>
    o == "Math" && mathFunctions.contains p
  | _ => false

/-- Embeds `isAstVariable`. -/
def isAstVariable : AST → Bool
  | .Identifier _ => true
  | .MemberExpression .. => true
  | _ => false

/-! ### `getVariableSignature` -/

/-- One iteration of the signature-building loop: which fragment the
current node contributes, and how it is attached (`[]` is pushed at the
end, everything else unshifted at the front). -/
def sigStep (ast : AST) (signature : List String) : List String :=
  match ast with
  | .MemberExpression _ _ true => signature ++ ["[]"]
  | .ThisExpression => "this" :: signature
  | .MemberExpression _ property false =>
    match property.nameOf with
    | some p =>
      if p = "x" ∨ p = "y" ∨ p = "z" then ".value" :: signature
      else if p = "constants" ∨ p = "thread" ∨ p = "output" then
        ("." ++ p) :: signature
      else ".value" :: signature
    | none =>
      -- `ast.property.name` falsy; a member expression has no `name`
      -- and no `callee`, so the loop unshifts `unknown`.
      "unknown" :: signature
  | .Identifier _ => "value" :: signature
  | .CallExpression callee _ =>
    match callee.nameOf with
    | some _ => "fn()" :: signature
    | none => "unknown" :: signature
  | _ => "unknown" :: signature

/-- The `while` loop of `getVariableSignature`: apply `sigStep`, then
continue with `ast.object` while the node has one. -/
def sigChain : AST → List String → List String
  | .MemberExpression object property computed, signature =>
    sigChain object (sigStep (.MemberExpression object property computed) signature)
  | ast, signature => sigStep ast signature

/-- The `allowedExpressions` list. -/
def allowedExpressions : List String :=
  ["value", "value[]", "value[][]", "value[][][]", "value.value",
   "this.thread.value", "this.output.value", "this.constants.value",
   "this.constants.value[]", "this.constants.value[][]",
   "this.constants.value[][][]", "fn()[]", "fn()[][]", "fn()[][][]"]

/-- Embeds `getVariableSignature`: throws a plain error on a non-variable node,
returns `value` for an identifier, otherwise matches the joined chain
against the allow-list (`none` = null signature). -/
def getVariableSignature (ast : AST) : Except JsError (Option String) :=
  if ¬ isAstVariable ast then
    .error (.plainError ("ast of type \"" ++ ast.typeName ++ "\" is not a variable signature"))
  else if let .Identifier _ := ast then
    .ok (some "value")
  else
    let signatureString := String.join (sigChain ast [])
    if allowedExpressions.contains signatureString then
      .ok (some signatureString)
    else
      .ok none

/-! ### `getVariableType` and `getConstantType` -/

/-- The loop of `getVariableType` over
`parent.calledFunctionsArguments[this.name]`: the first row whose entry
at the argument index is not `null` supplies its `type` field.  An
absent entry (`undefined`) is `!== null`, so reading `.type` of it is a
`TypeError`. -/
def calledArgsType : List (List (Option (Option String))) → Nat → Except JsError (Option String)
  | [], _ => .ok none
  | row :: rest, i =>
    match row[i]? with
    | none => .error (.typeError "Cannot read property type of undefined")
    | some none => calledArgsType rest i
    | some (some t) => .ok t

/-- Embeds `getVariableType(name)`.  The source memoizes a type found through
the parent back into `this.argumentTypes[argumentIndex]`; that write
stores exactly the value this function returns and is not otherwise
observed by any code path embedded here, so the embedding elides the
mutation and returns the value. -/
def getVariableType (fn : FunctionNode) (name : Option String) : Except JsError (Option String) :=
  match name with
  | none => .ok none
  | some n =>
    match fn.argumentNames.indexOf? n with
    | none =>
      match List.lookup n fn.declarations with
      | some d => .ok (some d.type)
      | none => .ok none
    | some i =>
      match fn.argumentTypes[i]? with
      | some t =>
        if t = "" then
          -- falsy argument-type slot: fall through to the parent lookup
          match fn.parent with
          | none => .ok none
          | some par =>
            match List.lookup fn.name par.calledFunctionsArguments with
            | none => .error (.typeError "Cannot read property length of undefined")
            | some rows => calledArgsType rows i
        else .ok (some t)
      | none =>
        match fn.parent with
        | none => .ok none
        | some par =>
          match List.lookup fn.name par.calledFunctionsArguments with
          | none => .error (.typeError "Cannot read property length of undefined")
          | some rows => calledArgsType rows i

/-- Embeds `getConstantType(constantName)`: the registered constant type, with
`Float` surfaced as `Number`; `null` when the table has no (truthy)
entry. -/
def getConstantType (fn : FunctionNode) (constantName : Option String) : Option String :=
  match constantName with
  | none => none
  | some n =>
    match List.lookup n fn.constantTypes with
    | some t =>
      if t = "" then none
      else if t = "Float" then some "Number"
      else some t
    | none => none

/-! ### The type oracle `getType` -/

/-- Embeds `getType(ast)`, with explicit fuel.  Returns the inferred type
string or `none` (JavaScript `null`/`undefined`); raises the
source's diagnostics through the error monad.  The `Array.isArray`
entry branch of the source (recursion into the last element of a node
list) is inlined at its only producers, `BlockStatement` (whose `body`
is passed) — an empty list indexes `undefined` and dies with a
`TypeError` when its `type` is read. -/
def getType : Nat → FunctionNode → AST → Except JsError (Option String)
  | 0, _, _ => .error .outOfFuel
  | fuel + 1, fn, ast =>
    match ast with
    | .BlockStatement body =>
      match body.getLast? with
      | none => .error (.typeError "Cannot read property type of undefined")
      | some last => getType fuel fn last
    | .ArrayExpression elements =>
      .ok (some ("Array(" ++ toString elements.length ++ ")"))
    | .Literal value =>
      .ok (some (if isIntegerJs value then "LiteralInteger" else "Number"))
    | .CallExpression callee arguments =>
      if isAstMathFunction (.CallExpression callee arguments) then
        .ok (some "Number")
      else
        match callee.nameOf, fn.lookupReturnTypeTable with
        | some n, some table => .ok (List.lookup n table)
        | _, _ => .ok none
    | .BinaryExpression operator left _right =>
      if operator = "%" then .ok (some "Number")
      else if operator = ">" ∨ operator = "<" then .ok (some "Boolean")
      else
        match getType fuel fn left with
        | .error e => .error e
        | .ok (some t) => .ok (some ((typeLookupMap t).getD t))
        | .ok none => .ok none
    | .UpdateExpression _ _ argument => getType fuel fn argument
    | .UnaryExpression _ _ argument => getType fuel fn argument
    | .VariableDeclaration declarations _ =>
      match declarations.head? with
      | none => .error (.typeError "Cannot read property id of undefined")
      | some d => getType fuel fn d
    | .VariableDeclarator id _ => getType fuel fn id
    | .Identifier name =>
      -- `isAstVariable` holds and the signature of an identifier is `value`
      if fn.argumentNames.contains name then
        getVariableType fn (some name)
      else
        match List.lookup name fn.declarations with
        | some d => .ok (some d.type)
        | none =>
          if name = "Infinity" then .ok (some "Integer") else .ok none
    | .ReturnStatement argument =>
      match argument with
      | some a => getType fuel fn a
      | none => .error (.typeError "Cannot read property type of null")
    | .MemberExpression object property computed =>
      let m : AST := .MemberExpression object property computed
      if isAstMathFunction m then
        -- dead branch: `isAstMathFunction` demands a CallExpression node
        match property.nameOf with
        | some "ceil" => .ok (some "Integer")
        | some "floor" => .ok (some "Integer")
        | some "round" => .ok (some "Integer")
        | _ => .ok (some "Number")
      else
        -- `isAstVariable` holds for every member expression
        match getVariableSignature m with
        | .error e => .error e
        | .ok variableSignature =>
          match variableSignature with
          | some "value[]" =>
            match getVariableType fn object.nameOf with
            | .error e => .error e
            | .ok t => .ok (t.bind typeLookupMap)
          | some "value[][]" =>
            match object with
            | .MemberExpression o2 _ _ =>
              match getVariableType fn o2.nameOf with
              | .error e => .error e
              | .ok t => .ok (t.bind typeLookupMap)
            | _ => .error (.typeError "Cannot read property name of undefined")
          | some "value[][][]" =>
            match object with
            | .MemberExpression (.MemberExpression o3 _ _) _ _ =>
              match getVariableType fn o3.nameOf with
              | .error e => .error e
              | .ok t => .ok (t.bind typeLookupMap)
            | _ => .error (.typeError "Cannot read property name of undefined")
          | some "this.thread.value" => .ok (some "Integer")
          | some "this.output.value" => .ok (some "Integer")
          | some "this.constants.value" =>
            .ok (getConstantType fn property.nameOf)
          | some "this.constants.value[]" =>
            match object with
            | .MemberExpression _ p2 _ =>
              .ok ((getConstantType fn p2.nameOf).bind typeLookupMap)
            | _ => .error (.typeError "Cannot read property name of undefined")
          | some "this.constants.value[][]" =>
            match object with
            | .MemberExpression (.MemberExpression _ p3 _) _ _ =>
              .ok ((getConstantType fn p3.nameOf).bind typeLookupMap)
            | _ => .error (.typeError "Cannot read property name of undefined")
          | some "this.constants.value[][][]" =>
            match object with
            | .MemberExpression (.MemberExpression (.MemberExpression _ p4 _) _ _) _ _ =>
              .ok ((getConstantType fn p4.nameOf).bind typeLookupMap)
            | _ => .error (.typeError "Cannot read property name of undefined")
          | some "fn()[]" =>
            match getType fuel fn object with
            | .error e => .error e
            | .ok t => .ok (t.bind typeLookupMap)
          | some "fn()[][]" =>
            match getType fuel fn object with
            | .error e => .error e
            | .ok t => .ok (t.bind typeLookupMap)
          | some "fn()[][][]" =>
            match getType fuel fn object with
            | .error e => .error e
            | .ok t => .ok (t.bind typeLookupMap)
          | some "value.value" =>
            if isAstMathVariable m then .ok (some "Number")
            else
              match property.nameOf with
              | some "r" =>
                match getVariableType fn object.nameOf with
                | .error e => .error e
                | .ok t => .ok (t.bind typeLookupMap)
              | some "g" =>
                match getVariableType fn object.nameOf with
                | .error e => .error e
                | .ok t => .ok (t.bind typeLookupMap)
              | some "b" =>
                match getVariableType fn object.nameOf with
                | .error e => .error e
                | .ok t => .ok (t.bind typeLookupMap)
              | some "a" =>
                match getVariableType fn object.nameOf with
                | .error e => .error e
                | .ok t => .ok (t.bind typeLookupMap)
              | _ => .error (.astError "Unhandled getType MemberExpression" m)
          | _ => .error (.astError "Unhandled getType MemberExpression" m)
    | .FunctionDeclaration body => getType fuel fn body
    | .ConditionalExpression _ consequent _ => getType fuel fn consequent
    | other =>
      .error (.astError ("Unhandled getType Type \"" ++ other.typeName ++ "\"") other)


/-! ### `getMemberExpressionDetails` -/

/-- Embeds `getMemberExpressionDetails(ast)`: dispatch on the recognized
signature, building the structured descriptor; `none` only for the
(unreachable on member expressions) `value` signature. -/
def getMemberExpressionDetails (fn : FunctionNode) (ast : AST) : Except JsError (Option Details) :=
  match ast with
  | .MemberExpression object property computed =>
    let m : AST := .MemberExpression object property computed
    match getVariableSignature m with
    | .error e => .error e
    | .ok variableSignature =>
      match variableSignature with
      | some "value" => .ok none
      | some "this.thread.value" =>
        .ok (some { signature := "this.thread.value", type := some "Integer",
                    name := property.nameOf })
      | some "this.output.value" =>
        .ok (some { signature := "this.output.value", type := some "Integer",
                    name := property.nameOf })
      | some "value[]" =>
        match object.nameOf with
        | none => .error (.astError "Unexpected expression" m)
        | some name =>
          match getVariableType fn (some name) with
          | .error e => .error e
          | .ok t =>
            .ok (some { name := some name, origin := some "user",
                        signature := "value[]", type := t,
                        xProperty := some property })
      | some "value[][]" =>
        match object with
        | .MemberExpression o2 p2 _ =>
          match o2.nameOf with
          | none => .error (.astError "Unexpected expression" m)
          | some name =>
            match getVariableType fn (some name) with
            | .error e => .error e
            | .ok t =>
              .ok (some { name := some name, origin := some "user",
                          signature := "value[][]", type := t,
                          yProperty := some p2, xProperty := some property })
        | _ => .error (.typeError "Cannot read property name of undefined")
      | some "value[][][]" =>
        match object with
        | .MemberExpression (.MemberExpression o3 p3 _) p2 _ =>
          match o3.nameOf with
          | none => .error (.astError "Unexpected expression" m)
          | some name =>
            match getVariableType fn (some name) with
            | .error e => .error e
            | .ok t =>
              .ok (some { name := some name, origin := some "user",
                          signature := "value[][][]", type := t,
                          zProperty := some p3, yProperty := some p2,
                          xProperty := some property })
        | _ => .error (.typeError "Cannot read property name of undefined")
      | some "value.value" =>
        match property.nameOf with
        | none => .error (.astError "Unexpected expression" m)
        | some p =>
          if isAstMathVariable m then
            .ok (some { name := some p, origin := some "Math",
                        type := some "Number", signature := "value.value" })
          else
            if p = "r" ∨ p = "g" ∨ p = "b" ∨ p = "a" then
              .ok (some { name := object.nameOf, property := some (.propName p),
                          origin := some "user", signature := "value.value",
                          type := some "Number" })
            else .error (.astError "Unexpected expression" m)
      | some "this.constants.value" =>
        match property.nameOf with
        | none => .error (.astError "Unexpected expression" m)
        | some name =>
          match getConstantType fn (some name) with
          | none => .error (.astError "Constant has no type" m)
          | some t =>
            .ok (some { name := some name, type := some t,
                        origin := some "constants",
                        signature := "this.constants.value" })
      | some "this.constants.value[]" =>
        match object with
        | .MemberExpression _ p2 _ =>
          match p2.nameOf with
          | none => .error (.astError "Unexpected expression" m)
          | some name =>
            match getConstantType fn (some name) with
            | none => .error (.astError "Constant has no type" m)
            | some t =>
              .ok (some { name := some name, type := some t,
                          origin := some "constants",
                          signature := "this.constants.value[]",
                          xProperty := some property })
        | _ => .error (.typeError "Cannot read property name of undefined")
      | some "this.constants.value[][]" =>
        match object with
        | .MemberExpression (.MemberExpression _ p3 _) p2 _ =>
          match p3.nameOf with
          | none => .error (.astError "Unexpected expression" m)
          | some name =>
            match getConstantType fn (some name) with
            | none => .error (.astError "Constant has no type" m)
            | some t =>
              .ok (some { name := some name, type := some t,
                          origin := some "constants",
                          signature := "this.constants.value[][]",
                          yProperty := some p2, xProperty := some property })
        | _ => .error (.typeError "Cannot read property name of undefined")
      | some "this.constants.value[][][]" =>
        match object with
        | .MemberExpression (.MemberExpression (.MemberExpression _ p4 _) p3 _) p2 _ =>
          match p4.nameOf with
          | none => .error (.astError "Unexpected expression" m)
          | some name =>
            match getConstantType fn (some name) with
            | none => .error (.astError "Constant has no type" m)
            | some t =>
              .ok (some { name := some name, type := some t,
                          origin := some "constants",
                          signature := "this.constants.value[][][]",
                          zProperty := some p3, yProperty := some p2,
                          xProperty := some property })
        | _ => .error (.typeError "Cannot read property name of undefined")
      | some "fn()[]" =>
        .ok (some { signature := "fn()[]", property := some (.propNode property) })
      | _ => .error (.astError "Unexpected expression" m)
  | other =>
    .error (.astError ("Expression " ++ other.typeName ++ " not a MemberExpression") other)

/-! ### The dependency / safety analyzer `getDependencies` -/

/-- The argument shape of a `getDependencies` call: a single (possibly
null) node, or a node array (the `Array.isArray` branch). -/
inductive DepCall where
  | one (ast : Option AST)
  | many (asts : List AST)

/-- Embeds `getDependencies(ast, dependencies, isNotSafe)`, with explicit fuel.
Returns the final state of the threaded `dependencies` array together
with the JavaScript return value (`DepRet`).  Every recursive call
decreases the fuel. -/
def getDependenciesCore : Nat → FunctionNode → DepCall → List Dependency → Bool → Except JsError (List Dependency × DepRet)
  | 0, _, _, _, _ => .error .outOfFuel
  | _ + 1, _, .one none, dependencies, _ => .ok (dependencies, .nullv)
  | fuel + 1, fn, .many asts, dependencies, isNotSafe =>
    match asts with
    | [] => .ok (dependencies, .arrSelf)
    | a :: rest =>
      match getDependenciesCore fuel fn (.one (some a)) dependencies isNotSafe with
      | .error e => .error e
      | .ok (d, _) => getDependenciesCore fuel fn (.many rest) d isNotSafe
  | fuel + 1, fn, .one (some ast), dependencies, isNotSafe =>
    match ast with
    | .Literal value =>
      .ok (dependencies ++
        [{ origin := "literal", value := some value,
           isSafe := if isNotSafe then false else jsFinite value }], .arrSelf)
    | .VariableDeclarator _ init =>
      getDependenciesCore fuel fn (.one init) dependencies isNotSafe
    | .Identifier name =>
      match List.lookup name fn.declarations with
      | some decl =>
        .ok (dependencies ++
          [{ name := some name, origin := "declaration",
             isSafe := if isNotSafe then false else isSafeDependencies decl.dependencies }],
          .arrSelf)
      | none =>
        if fn.argumentNames.contains name then
          .ok (dependencies ++
            [{ name := some name, origin := "argument", isSafe := false }], .arrSelf)
        else
          .ok (dependencies, .arrSelf)
    | .FunctionDeclaration body =>
      match body with
      | .BlockStatement stmts =>
        getDependenciesCore fuel fn (.one stmts.getLast?) dependencies isNotSafe
      | _ => .error (.typeError "Cannot read property body of undefined")
    | .ReturnStatement argument =>
      -- the source calls `this.getDependencies(ast.argument, dependencies)`
      -- without forwarding `isNotSafe`
      getDependenciesCore fuel fn (.one argument) dependencies false
    | .BinaryExpression operator left right =>
      let isNotSafe2 := operator = "/" ∨ operator = "*"
      match getDependenciesCore fuel fn (.one (some left)) dependencies isNotSafe2 with
      | .error e => .error e
      | .ok (d1, _) =>
        match getDependenciesCore fuel fn (.one (some right)) d1 isNotSafe2 with
        | .error e => .error e
        | .ok (d2, _) => .ok (d2, .arrSelf)
    | .UpdateExpression _ _ argument =>
      getDependenciesCore fuel fn (.one (some argument)) dependencies isNotSafe
    | .VariableDeclaration declarations _ =>
      getDependenciesCore fuel fn (.many declarations) dependencies isNotSafe
    | .ArrayExpression _ =>
      .ok (dependencies ++ [{ origin := "declaration", isSafe := true }], .arrSelf)
    | .CallExpression _ _ =>
      .ok (dependencies ++ [{ origin := "function", isSafe := true }], .arrSelf)
    | .MemberExpression object property computed =>
      match getMemberExpressionDetails fn (.MemberExpression object property computed) with
      | .error e => .error e
      | .ok (some details) => .ok (dependencies, .str details.type)
      | .ok none =>
        .error (.astError "Unhandled type MemberExpression in getAllVariables"
          (.MemberExpression object property computed))
    | other =>
      .error (.astError ("Unhandled type " ++ other.typeName ++ " in getAllVariables") other)

/-- Embeds `getDependencies` on a single node (the shape every caller in the
source uses). -/
def getDependencies (fuel : Nat) (fn : FunctionNode) (ast : Option AST)
    (dependencies : List Dependency) (isNotSafe : Bool) :
    Except JsError (List Dependency × DepRet) :=
  getDependenciesCore fuel fn (.one ast) dependencies isNotSafe

/-! ### The generic walker `astGeneric` and its fixed-behaviour handlers -/

/-- The argument shape of one walker step: a single node, a node array,
the body of the `astSequenceExpression` loop (`exprs`, current index,
loop bound), or the declarator loop of `astVariableDeclaration`
(remaining declarators and the shared inferred type, threading the
`result` fragment list). -/
inductive WalkCall where
  | one (ast : AST)
  | many (asts : List AST)
  | seqLoop (expressions : List AST) (i n : Nat)
  | varRest (declarations : List AST) (type : String)

/-- Embeds `astGeneric` together with the fixed-behaviour handlers of the base
class, with explicit fuel; every recursive call decreases the fuel.
The state returned is the updated `FunctionNode` (the only field the
base class mutates during a walk is `declarations`) and the output
buffer. -/
def walk : Nat → FunctionNode → WalkCall → List Frag → Except JsError (FunctionNode × List Frag)
  | 0, _, _, _ => .error .outOfFuel
  | fuel + 1, fn, .many asts, retArr =>
    match asts with
    | [] => .ok (fn, retArr)
    | a :: rest =>
      match walk fuel fn (.one a) retArr with
      | .error e => .error e
      | .ok (fn1, r1) => walk fuel fn1 (.many rest) r1
  | fuel + 1, fn, .seqLoop expressions i n, retArr =>
    -- `for (let i = 0; i < sNode.expressions.length; i++) { if (i > 0)
    -- retArr.push(','); this.astGeneric(sNode.expressions, retArr); }`
    -- note the recursive call passes the whole `expressions` array
    if i < n then
      let retArr1 := if 0 < i then retArr ++ [.str ","] else retArr
      match walk fuel fn (.many expressions) retArr1 with
      | .error e => .error e
      | .ok (fn1, r1) => walk fuel fn1 (.seqLoop expressions (i + 1) n) r1
    else .ok (fn, retArr)
  | fuel + 1, fn, .varRest declarations type, result =>
    -- `for (let i = 1; i < declarations.length; i++) { ... }`
    match declarations with
    | [] => .ok (fn, result)
    | declaration :: rest =>
      match getDependencies fuel fn (some declaration) [] false with
      | .error e => .error e
      | .ok (l, r) =>
        let key := declaration.idNameOf.getD "undefined"
        let fn1 := { fn with declarations :=
          (key, { type := type, dependencies := r.toStored l, isSafe := false }) ::
            fn.declarations }
        match walk fuel fn1 (.one declaration) result with
        | .error e => .error e
        | .ok (fn2, result2) => walk fuel fn2 (.varRest rest type) result2
  | fuel + 1, fn, .one ast, retArr =>
    match ast with
    | .FunctionDeclaration body =>
      -- `astFunctionDeclaration`: when an `onNestedFunction` hook is
      -- registered, the return type is inferred (errors propagate) and
      -- the hook is invoked with the nested source text; the hook call
      -- itself is external to the embedded state.
      if fn.onNestedFunction then
        match getType fuel fn (.FunctionDeclaration body) with
        | .error e => .error e
        | .ok _ => .ok (fn, retArr)
      else .ok (fn, retArr)
    | .FunctionExpression _ => .ok (fn, retArr)
    | .ReturnStatement _ => .ok (fn, retArr)
    | .Literal _ => .ok (fn, retArr)
    | .BinaryExpression .. => .ok (fn, retArr)
    | .Identifier _ => .ok (fn, retArr)
    | .AssignmentExpression .. => .ok (fn, retArr)
    | .ExpressionStatement expression =>
      match walk fuel fn (.one expression) retArr with
      | .error e => .error e
      | .ok (fn1, r1) => .ok (fn1, r1 ++ [.str ";"])
    | .EmptyStatement => .ok (fn, retArr)
    | .BlockStatement _ => .ok (fn, retArr)
    | .IfStatement => .ok (fn, retArr)
    | .BreakStatement => .ok (fn, retArr ++ [.str "break;"])
    | .ContinueStatement => .ok (fn, retArr ++ [.str "continue;\n"])
    | .ForStatement => .ok (fn, retArr)
    | .WhileStatement => .ok (fn, retArr)
    | .DoWhileStatement => .ok (fn, retArr)
    | .VariableDeclaration declarations kind =>
      let varDecNode : AST := .VariableDeclaration declarations kind
      match declarations with
      | [] => .error (.astError "Unexpected expression" varDecNode)
      | firstDeclaration :: rest =>
        match firstDeclaration.initOf with
        | none => .error (.astError "Unexpected expression" varDecNode)
        | some init =>
          let typeRes : Except JsError (Option String) :=
            if fn.isState "in-for-loop-init" then .ok (some "Integer")
            else getType fuel fn init
          match typeRes with
          | .error e => .error e
          | .ok ty0 =>
            -- `if (type === 'LiteralInteger') type = 'Number';`
            let ty1 := if ty0 = some "LiteralInteger" then some "Number" else ty0
            match ty1 with
            | none => .error (.astError "Markup type undefined not handled" varDecNode)
            | some type =>
              match List.lookup type fn.typeMap with
              | none => .error (.astError "Markup type undefined not handled" varDecNode)
              | some markupType =>
                if markupType = "" then
                  .error (.astError ("Markup type " ++ markupType ++ " not handled") varDecNode)
                else
                  match getDependencies fuel fn (some init) [] false with
                  | .error e => .error e
                  | .ok (l, r) =>
                    match r with
                    | .str (some _) =>
                      .error (.typeError "dependencies.every is not a function")
                    | .str none =>
                      .error (.typeError "Cannot read property every of undefined")
                    | .nullv =>
                      .error (.typeError "Cannot read property every of null")
                    | .arrSelf =>
                      let key := firstDeclaration.idNameOf.getD "undefined"
                      let fn1 := { fn with declarations :=
                        (key, { type := type, dependencies := .arr l,
                                isSafe := l.all (·.isSafe) }) :: fn.declarations }
                      -- note: the emitted fragment interpolates `type`,
                      -- not `markupType`
                      let initResult : List Frag := [.str (type ++ " user_" ++ key ++ "=")]
                      match walk fuel fn1 (.one init) initResult with
                      | .error e => .error e
                      | .ok (fn2, initResult2) =>
                        let result : List Frag :=
                          [.str (String.join (initResult2.map fragStr))]
                        match walk fuel fn2 (.varRest rest type) result with
                        | .error e => .error e
                        | .ok (fn3, result3) =>
                          -- `retArr.push(retArr, result.join(','));
                          --  retArr.push(';');`
                          .ok (fn3, retArr ++
                            [.selfRef,
                             .str (String.intercalate "," (result3.map fragStr)),
                             .str ";"])
    | .VariableDeclarator id init =>
      match walk fuel fn (.one id) retArr with
      | .error e => .error e
      | .ok (fn1, r1) =>
        match init with
        | none => .ok (fn1, r1)
        | some i =>
          match walk fuel fn1 (.one i) (r1 ++ [.str "="]) with
          | .error e => .error e
          | .ok (fn2, r2) => .ok (fn2, r2)
    | .ThisExpression => .ok (fn, retArr)
    | .SequenceExpression expressions =>
      walk fuel fn (.seqLoop expressions 0 expressions.length) retArr
    | .UnaryExpression operator prefixed argument =>
      if prefixed then
        match walk fuel fn (.one argument) (retArr ++ [.str operator]) with
        | .error e => .error e
        | .ok (fn1, r1) => .ok (fn1, r1)
      else
        match walk fuel fn (.one argument) retArr with
        | .error e => .error e
        | .ok (fn1, r1) => .ok (fn1, r1 ++ [.str operator])
    | .UpdateExpression operator prefixed argument =>
      if prefixed then
        match walk fuel fn (.one argument) (retArr ++ [.str operator]) with
        | .error e => .error e
        | .ok (fn1, r1) => .ok (fn1, r1)
      else
        match walk fuel fn (.one argument) retArr with
        | .error e => .error e
        | .ok (fn1, r1) => .ok (fn1, r1 ++ [.str operator])
    | .LogicalExpression operator left right =>
      match walk fuel fn (.one left) (retArr ++ [.str "("]) with
      | .error e => .error e
      | .ok (fn1, r1) =>
        match walk fuel fn1 (.one right) (r1 ++ [.str operator]) with
        | .error e => .error e
        | .ok (fn2, r2) => .ok (fn2, r2 ++ [.str ")"])
    | .MemberExpression .. => .ok (fn, retArr)
    | .CallExpression .. => .ok (fn, retArr)
    | .ArrayExpression _ => .ok (fn, retArr)
    | .DebuggerStatement => .ok (fn, retArr)
    | .ConditionalExpression test consequent alternate =>
      match walk fuel fn (.one test) (retArr ++ [.str "("]) with
      | .error e => .error e
      | .ok (fn1, r1) =>
        match walk fuel fn1 (.one consequent) (r1 ++ [.str "?"]) with
        | .error e => .error e
        | .ok (fn2, r2) =>
          match walk fuel fn2 (.one alternate) (r2 ++ [.str ":"]) with
          | .error e => .error e
          | .ok (fn3, r3) => .ok (fn3, r3 ++ [.str ")"])

/-- Embeds `astGeneric(ast, retArr)` on a single node. -/
def astGeneric (fuel : Nat) (fn : FunctionNode) (ast : AST) (retArr : List Frag) :
    Except JsError (FunctionNode × List Frag) :=
  walk fuel fn (.one ast) retArr

/-! ### Construction, validation and serialization -/

/-- The settings object of the constructor, restricted to the keys the
`toJSON().settings` payload carries (the round-trip claim constructs
from exactly that payload).  A `none` field models an absent key; the
nested options of `debug` and `loopMaxIterations` model a present key
holding `null`. -/
structure Settings where
  source : Option String := none
  name : Option String := none
  constants : Option (List (String × JsNum)) := none
  constantTypes : Option (List (String × String)) := none
  isRootKernel : Option Bool := none
  isSubKernel : Option Bool := none
  debug : Option (Option Bool) := none
  output : Option (List Nat) := none
  loopMaxIterations : Option (Option Nat) := none
  argumentNames : Option (List String) := none
  argumentTypes : Option (List String) := none
  argumentSizes : Option (List Nat) := none
  returnType : Option String := none
deriving DecidableEq, Repr

/-- The state the constructor builds before `validate()`: the defaults
of lines 23-45 with the settings loop (`for (const p in settings) ...
this[p] = settings[p]`) folded in.  Every key of `Settings` names an own
property of `this` at that point, so a present key simply overwrites the
default; the loop runs before the `returnType` default, which is applied
last (a falsy — absent or empty — `returnType` becomes `Number`).
`name` reads the original `source` argument; so does the
`argumentNames` scan, both before any overwrite. -/
def buildNode (source : String) (s : Settings) : FunctionNode :=
  { source := s.source.getD source
    name :=
      match s.name with
      | some n => n
      | none =>
        if s.isRootKernel.getD false then "kernel"
        else getFunctionNameFromString source
    constants := s.constants.getD []
    constantTypes := s.constantTypes.getD []
    isRootKernel := s.isRootKernel.getD false
    isSubKernel := s.isSubKernel.getD false
    parent := none
    debug := s.debug.getD none
    declarations := []
    states := []
    lookupReturnTypeTable := none
    onNestedFunction := false
    loopMaxIterations := s.loopMaxIterations.getD none
    argumentNames := s.argumentNames.getD (getArgumentNamesFromString source)
    argumentTypes := s.argumentTypes.getD []
    argumentSizes := s.argumentSizes.getD []
    returnType :=
      match s.returnType with
      | some r => if r = "" then "Number" else r
      | none => "Number"
    output := s.output.getD []
    typeMap := [] }

/-- Embeds `validate()`: the first failing check's message, `none` when the
instance passes.  The `typeof this.source !== 'string'` check cannot
fail in this embedding, which fixes textual sources. -/
def validate (fn : FunctionNode) : Option String :=
  if ¬ isFunctionString fn.source then some "this.source not a function string"
  else if fn.name = "" then some "this.name could not be set"
  else if fn.argumentTypes.length > 0 ∧ fn.argumentTypes.length ≠ fn.argumentNames.length then
    some ("argumentTypes count of " ++ toString fn.argumentTypes.length ++
      " exceeds " ++ toString fn.argumentNames.length)
  else if fn.output.length < 1 then some "this.output is not big enough"
  else none

/-- The constructor `new FunctionNode(source, settings)`: rejects a
falsy source, builds the instance, validates it. -/
def construct (source : String) (s : Settings) : Except String FunctionNode :=
  if source = "" then .error "source parameter is missing"
  else
    let fn := buildNode source s
    match validate fn with
    | some e => .error e
    | none => .ok fn

/-- The `settings` object of `toJSON()`: every serialized key present,
holding the instance's current field. -/
def toJSONsettings (fn : FunctionNode) : Settings :=
  { source := some fn.source
    name := some fn.name
    constants := some fn.constants
    constantTypes := some fn.constantTypes
    isRootKernel := some fn.isRootKernel
    isSubKernel := some fn.isSubKernel
    debug := some fn.debug
    output := some fn.output
    loopMaxIterations := some fn.loopMaxIterations
    argumentNames := some fn.argumentNames
    argumentTypes := some fn.argumentTypes
    argumentSizes := some fn.argumentSizes
    returnType := some fn.returnType }

/-! ### Side-condition predicates for the general theorems -/

mutual

/-- No walk of this node can reach `astVariableDeclaration` (the only
handler that writes to `this.declarations`): the node is not a variable
declaration, and neither is any node the base-class walker recurses
into from it. -/
def noVarDeclWalk : AST → Bool
  | .VariableDeclaration _ _ => false
  | .ExpressionStatement e => noVarDeclWalk e
  | .SequenceExpression es => noVarDeclWalkList es
  | .UnaryExpression _ _ a => noVarDeclWalk a
  | .UpdateExpression _ _ a => noVarDeclWalk a
  | .LogicalExpression _ l r => noVarDeclWalk l && noVarDeclWalk r
  | .ConditionalExpression t c a => noVarDeclWalk t && (noVarDeclWalk c && noVarDeclWalk a)
  | .VariableDeclarator id init =>
    noVarDeclWalk id &&
      (match init with
       | some i => noVarDeclWalk i
       | none => true)
  | _ => true

/-- List version of `noVarDeclWalk`. -/
def noVarDeclWalkList : List AST → Bool
  | [] => true
  | a :: rest => noVarDeclWalk a && noVarDeclWalkList rest

end

mutual

/-- The subtree contains no node that resets or escapes the contextual
`isNotSafe` flag of `getDependencies`: no binary expression (which
recomputes the flag from its own operator), no return statement (whose
recursion drops the flag) and no array literal (which pushes an
unconditionally safe `declaration`-origin record). -/
def noUnsafeReset : AST → Bool
  | .BinaryExpression .. => false
  | .ReturnStatement _ => false
  | .ArrayExpression _ => false
  | .VariableDeclarator _ init =>
    (match init with
     | some i => noUnsafeReset i
     | none => true)
  | .UpdateExpression _ _ a => noUnsafeReset a
  | .VariableDeclaration ds _ => noUnsafeResetList ds
  | .FunctionDeclaration body =>
    (match body with
     | .BlockStatement stmts => noUnsafeResetList stmts
     | _ => true)
  | _ => true

/-- List version of `noUnsafeReset`. -/
def noUnsafeResetList : List AST → Bool
  | [] => true
  | a :: rest => noUnsafeReset a && noUnsafeResetList rest

end

/-- The 1-based line number the claim describes, following the spec
words: the number of the source line containing the start offset, i.e.
one plus the number of newlines **before** the offset.  (Stated from the
claim, for comparison against `astErrorOutput`.) -/
def claimLineOf (source : String) (start : Nat) : Nat :=
  ((source.toList).take start).count '\n' + 1

/-- The column the claim describes, following the spec words: the length
of the text between the last newline preceding the start offset and the
offset.  (Stated from the claim, for comparison against
`astErrorOutput`.) -/
def claimColumnOf (source : String) (start : Nat) : Nat :=
  (afterLastNl ((source.toList).take start)).length


/-! ### Concrete fixtures used by the claim theorems -/

/-- A function node whose backend `typeMap` lowers `Number` to `float`. -/
def fnFloatMap : FunctionNode := { typeMap := [("Number", "float")] }

/-- The declarator `a = 1`. -/
def declA : AST := .VariableDeclarator (.Identifier "a") (some (.Literal (.val 1)))

/-- The declarator `b = 2`. -/
def declB : AST := .VariableDeclarator (.Identifier "b") (some (.Literal (.val 2)))

/-- The literal dependency of `1`. -/
def depLit1 : Dependency := { origin := "literal", value := some (.val 1), isSafe := true }

/-- The literal dependency of `2`. -/
def depLit2 : Dependency := { origin := "literal", value := some (.val 2), isSafe := true }

/-- The record stored for declarator `a` of `let a = 1, b = 2;`. -/
def recA : Declaration := { type := "Number", dependencies := .arr [depLit1], isSafe := true }

/-- The record stored for declarator `b` of `let a = 1, b = 2;`: safe
dependencies, hard-coded `isSafe := false`. -/
def recB : Declaration := { type := "Number", dependencies := .arr [depLit2], isSafe := false }

/-- The state after walking `let a = 1, b = 2;` from `fnFloatMap`. -/
def fnLetAB : FunctionNode :=
  { typeMap := [("Number", "float")], declarations := [("b", recB), ("a", recA)] }


/-- The AST of `Math.floor(1.5)`. -/
def mathFloorCallAST : AST :=
  .CallExpression (.MemberExpression (.Identifier "Math") (.Identifier "floor") false)
    [.Literal (.val (mkRat 3 2))]

/-- The AST of `function(){ return Math.floor(1.5); }`. -/
def mathFloorKernelAST : AST :=
  .FunctionDeclaration (.BlockStatement [.ReturnStatement (some mathFloorCallAST)])

/-- The AST of `1 * (2 + 3)`. -/
def mulPlusAST : AST :=
  .BinaryExpression "*" (.Literal (.val 1))
    (.BinaryExpression "+" (.Literal (.val 2)) (.Literal (.val 3)))

/-- The AST of `let x = 1.5;`. -/
def letX15AST : AST :=
  .VariableDeclaration
    [.VariableDeclarator (.Identifier "x") (some (.Literal (.val (mkRat 3 2))))] "let"

/-- The record stored for `x` by `let x = 1.5;`. -/
def recX15 : Declaration :=
  { type := "Number",
    dependencies :=
      .arr [{ origin := "literal", value := some (.val (mkRat 3 2)), isSafe := true }],
    isSafe := true }

/-- The AST of the sequence `-1, +2` (two prefix unary expressions). -/
def seqTwoAST : AST :=
  .SequenceExpression
    [.UnaryExpression "-" true (.Literal (.val 1)),
     .UnaryExpression "+" true (.Literal (.val 2))]

/-- The AST of `this.thread.x`. -/
def threadXAST : AST :=
  .MemberExpression
    (.MemberExpression .ThisExpression (.Identifier "thread") false)
    (.Identifier "x") false

/-- The source text of the round-trip witness unit. -/
def c6src : String := "function foo(a){ return 1; }"

/-- The settings of the round-trip witness unit. -/
def c6settings : Settings := { output := some [1] }

/-! ### Supporting lemmas -/

/-- A walk that cannot reach `astVariableDeclaration` leaves the
`FunctionNode` state unchanged. -/
theorem walk_preserves_fn (fuel : Nat) :
    ∀ (fn : FunctionNode) (call : WalkCall) (retArr : List Frag)
      (fn2 : FunctionNode) (retArr2 : List Frag),
      walk fuel fn call retArr = .ok (fn2, retArr2) →
      (match call with
       | .one ast => noVarDeclWalk ast = true
       | .many asts => noVarDeclWalkList asts = true
       | .seqLoop es _ _ => noVarDeclWalkList es = true
       | .varRest _ _ => False) →
      fn2 = fn := by
  induction fuel with
  | zero => intro fn call retArr fn2 retArr2 h _; simp [walk] at h
  | succ fuel ih =>
    intro fn call retArr fn2 retArr2 h hnv
    match call with
    | .many [] =>
      simp [walk] at h
      exact h.1.symm
    | .many (a :: rest) =>
      simp only [walk] at h
      cases h1 : walk fuel fn (.one a) retArr with
      | error er => simp [h1] at h
      | ok p =>
        obtain ⟨fn1, r1⟩ := p
        simp only [h1] at h
        simp only [noVarDeclWalkList, Bool.and_eq_true] at hnv
        have e1 := ih fn (.one a) retArr fn1 r1 h1 hnv.1
        have e2 := ih fn1 (.many rest) r1 fn2 retArr2 h hnv.2
        rw [e2, e1]
    | .seqLoop es i n =>
      simp only [walk] at h
      by_cases hin : i < n
      · rw [if_pos hin] at h
        cases h1 : walk fuel fn (.many es) (if 0 < i then retArr ++ [.str ","] else retArr) with
        | error er => simp [h1] at h
        | ok p =>
          obtain ⟨fn1, r1⟩ := p
          simp only [h1] at h
          have e1 := ih fn (.many es) _ fn1 r1 h1 hnv
          have e2 := ih fn1 (.seqLoop es (i + 1) n) r1 fn2 retArr2 h hnv
          rw [e2, e1]
      · rw [if_neg hin] at h
        simp at h
        exact h.1.symm
    | .varRest ds t => exact absurd hnv (by simp)
    | .one ast =>
      match ast with
      | .VariableDeclaration _ _ => simp [noVarDeclWalk] at hnv
      | .ExpressionStatement e =>
        simp only [noVarDeclWalk] at hnv
        simp only [walk] at h
        cases h1 : walk fuel fn (.one e) retArr with
        | error er => simp [h1] at h
        | ok p =>
          obtain ⟨fn1, r1⟩ := p
          simp only [h1] at h
          simp at h
          rw [← h.1]
          exact ih fn (.one e) retArr fn1 r1 h1 hnv
      | .SequenceExpression es =>
        simp only [noVarDeclWalk] at hnv
        simp only [walk] at h
        exact ih fn (.seqLoop es 0 es.length) retArr fn2 retArr2 h hnv
      | .UnaryExpression op pre a =>
        simp only [noVarDeclWalk] at hnv
        simp only [walk] at h
        by_cases hp : pre
        · rw [if_pos hp] at h
          cases h1 : walk fuel fn (.one a) (retArr ++ [.str op]) with
          | error er => simp [h1] at h
          | ok p =>
            obtain ⟨fn1, r1⟩ := p
            simp only [h1] at h
            simp at h
            rw [← h.1]
            exact ih fn (.one a) _ fn1 r1 h1 hnv
        · rw [if_neg hp] at h
          cases h1 : walk fuel fn (.one a) retArr with
          | error er => simp [h1] at h
          | ok p =>
            obtain ⟨fn1, r1⟩ := p
            simp only [h1] at h
            simp at h
            rw [← h.1]
            exact ih fn (.one a) _ fn1 r1 h1 hnv
      | .UpdateExpression op pre a =>
        simp only [noVarDeclWalk] at hnv
        simp only [walk] at h
        by_cases hp : pre
        · rw [if_pos hp] at h
          cases h1 : walk fuel fn (.one a) (retArr ++ [.str op]) with
          | error er => simp [h1] at h
          | ok p =>
            obtain ⟨fn1, r1⟩ := p
            simp only [h1] at h
            simp at h
            rw [← h.1]
            exact ih fn (.one a) _ fn1 r1 h1 hnv
        · rw [if_neg hp] at h
          cases h1 : walk fuel fn (.one a) retArr with
          | error er => simp [h1] at h
          | ok p =>
            obtain ⟨fn1, r1⟩ := p
            simp only [h1] at h
            simp at h
            rw [← h.1]
            exact ih fn (.one a) _ fn1 r1 h1 hnv
      | .LogicalExpression op l r =>
        simp only [noVarDeclWalk, Bool.and_eq_true] at hnv
        simp only [walk] at h
        cases h1 : walk fuel fn (.one l) (retArr ++ [.str "("]) with
        | error er => simp [h1] at h
        | ok p =>
          obtain ⟨fn1, r1⟩ := p
          simp only [h1] at h
          cases h2 : walk fuel fn1 (.one r) (r1 ++ [.str op]) with
          | error er => simp [h2] at h
          | ok q =>
            obtain ⟨fnb, rb⟩ := q
            simp only [h2] at h
            simp at h
            have e1 := ih fn (.one l) _ fn1 r1 h1 hnv.1
            have e2 := ih fn1 (.one r) _ fnb rb h2 hnv.2
            rw [← h.1, e2, e1]
      | .ConditionalExpression t c a =>
        simp only [noVarDeclWalk, Bool.and_eq_true] at hnv
        simp only [walk] at h
        cases h1 : walk fuel fn (.one t) (retArr ++ [.str "("]) with
        | error er => simp [h1] at h
        | ok p =>
          obtain ⟨fn1, r1⟩ := p
          simp only [h1] at h
          cases h2 : walk fuel fn1 (.one c) (r1 ++ [.str "?"]) with
          | error er => simp [h2] at h
          | ok q =>
            obtain ⟨fnb, rb⟩ := q
            simp only [h2] at h
            cases h3 : walk fuel fnb (.one a) (rb ++ [.str ":"]) with
            | error er => simp [h3] at h
            | ok w =>
              obtain ⟨fnc, rc⟩ := w
              simp only [h3] at h
              simp at h
              have e1 := ih fn (.one t) _ fn1 r1 h1 hnv.1
              have e2 := ih fn1 (.one c) _ fnb rb h2 hnv.2.1
              have e3 := ih fnb (.one a) _ fnc rc h3 hnv.2.2
              rw [← h.1, e3, e2, e1]
      | .VariableDeclarator id none =>
        simp only [noVarDeclWalk, Bool.and_eq_true] at hnv
        simp only [walk] at h
        cases h1 : walk fuel fn (.one id) retArr with
        | error er => simp [h1] at h
        | ok p =>
          obtain ⟨fn1, r1⟩ := p
          simp only [h1] at h
          have e1 := ih fn (.one id) _ fn1 r1 h1 hnv.1
          simp at h
          rw [← h.1, e1]
      | .VariableDeclarator id (some i) =>
        simp only [noVarDeclWalk, Bool.and_eq_true] at hnv
        simp only [walk] at h
        cases h1 : walk fuel fn (.one id) retArr with
        | error er => simp [h1] at h
        | ok p =>
          obtain ⟨fn1, r1⟩ := p
          simp only [h1] at h
          have e1 := ih fn (.one id) _ fn1 r1 h1 hnv.1
          cases h2 : walk fuel fn1 (.one i) (r1 ++ [.str "="]) with
          | error er => simp [h2] at h
          | ok q =>
            obtain ⟨fnb, rb⟩ := q
            simp only [h2] at h
            simp at h
            have e2 := ih fn1 (.one i) _ fnb rb h2 hnv.2
            rw [← h.1, e2, e1]
      | .FunctionDeclaration body =>
        simp only [walk] at h
        by_cases hq : fn.onNestedFunction
        · rw [if_pos hq] at h
          cases h1 : getType fuel fn (.FunctionDeclaration body) with
          | error er => simp [h1] at h
          | ok tv =>
            simp only [h1] at h
            simp at h
            exact h.1.symm
        · rw [if_neg hq] at h
          simp at h
          exact h.1.symm
      | .Literal v => simp [walk] at h; exact h.1.symm
      | .Identifier nm => simp [walk] at h; exact h.1.symm
      | .ThisExpression => simp [walk] at h; exact h.1.symm
      | .MemberExpression o pr c => simp [walk] at h; exact h.1.symm
      | .CallExpression c args => simp [walk] at h; exact h.1.symm
      | .BinaryExpression op l r => simp [walk] at h; exact h.1.symm
      | .AssignmentExpression op l r => simp [walk] at h; exact h.1.symm
      | .EmptyStatement => simp [walk] at h; exact h.1.symm
      | .DebuggerStatement => simp [walk] at h; exact h.1.symm
      | .BlockStatement b => simp [walk] at h; exact h.1.symm
      | .ReturnStatement a => simp [walk] at h; exact h.1.symm
      | .IfStatement => simp [walk] at h; exact h.1.symm
      | .BreakStatement => simp [walk] at h; exact h.1.symm
      | .ContinueStatement => simp [walk] at h; exact h.1.symm
      | .ForStatement => simp [walk] at h; exact h.1.symm
      | .WhileStatement => simp [walk] at h; exact h.1.symm
      | .DoWhileStatement => simp [walk] at h; exact h.1.symm
      | .ArrayExpression es => simp [walk] at h; exact h.1.symm
      | .FunctionExpression b => simp [walk] at h; exact h.1.symm

/-- The declarator loop of `astVariableDeclaration` (lines 855-864 of
the source) only prepends declaration records whose `isSafe` flag is the
hard-coded `false`. -/
theorem varRest_records (fuel : Nat) :
    ∀ (decls : List AST) (t : String) (fn : FunctionNode) (result : List Frag)
      (fn2 : FunctionNode) (result2 : List Frag),
      walk fuel fn (.varRest decls t) result = .ok (fn2, result2) →
      noVarDeclWalkList decls = true →
      ∃ recs : List (String × Declaration),
        fn2.declarations = recs ++ fn.declarations ∧
        ∀ p ∈ recs, p.2.isSafe = false := by
  induction fuel with
  | zero => intro decls t fn result fn2 result2 h _; simp [walk] at h
  | succ fuel ih =>
    intro decls t fn result fn2 result2 h hnv
    match decls with
    | [] =>
      simp [walk] at h
      exact ⟨[], by simp [← h.1], by simp⟩
    | d :: rest =>
      simp only [noVarDeclWalkList, Bool.and_eq_true] at hnv
      simp only [walk] at h
      cases h1 : getDependencies fuel fn (some d) [] false with
      | error er => simp [h1] at h
      | ok p =>
        obtain ⟨l, r⟩ := p
        simp only [h1] at h
        cases h2 : walk fuel
            { fn with declarations :=
                (d.idNameOf.getD "undefined",
                  { type := t, dependencies := r.toStored l, isSafe := false }) ::
                  fn.declarations }
            (.one d) result with
        | error er => simp [h2] at h
        | ok q =>
          obtain ⟨fnb, rb⟩ := q
          simp only [h2] at h
          have e1 := walk_preserves_fn fuel _ (.one d) result fnb rb h2 hnv.1
          obtain ⟨recs, hrecs, hall⟩ := ih rest t fnb rb fn2 result2 h hnv.2
          refine ⟨recs ++ [(d.idNameOf.getD "undefined",
            { type := t, dependencies := r.toStored l, isSafe := false })], ?_, ?_⟩
          · rw [hrecs, e1]
            simp
          · intro p hp
            rcases List.mem_append.mp hp with hp1 | hp2
            · exact hall p hp1
            · simp at hp2
              rw [hp2]

/-- Claim C1 (amended): For every successful run of the
variable-declaration handler: the record stored for the **first**
declarator has `isSafe` equal to the logical AND of the `isSafe` flags
of its recorded dependencies, while the records stored for second and
later declarators have `isSafe = false` regardless of their
dependencies.  (The side condition `noVarDeclWalkList` rules out
artificial declarator subtrees that themselves contain variable
declarations, which the parser of the source never produces.) -/
theorem astVariableDeclaration_record_isSafe (fuel : Nat) (fn : FunctionNode)
    (d0 : AST) (rest : List AST) (kind : String) (retArr : List Frag)
    (fn2 : FunctionNode) (retArr2 : List Frag)
    (h : astGeneric (fuel + 1) fn (.VariableDeclaration (d0 :: rest) kind) retArr =
      .ok (fn2, retArr2))
    (hnv : noVarDeclWalkList (d0 :: rest) = true) :
    ∃ (init : AST) (t : String) (l : List Dependency)
      (recs : List (String × Declaration)),
      d0.initOf = some init ∧
      getDependencies fuel fn (some init) [] false = .ok (l, .arrSelf) ∧
      fn2.declarations =
        recs ++ (d0.idNameOf.getD "undefined",
          { type := t, dependencies := .arr l, isSafe := l.all (·.isSafe) }) ::
          fn.declarations ∧
      (∀ p ∈ recs, p.2.isSafe = false) := by
  simp only [noVarDeclWalkList, Bool.and_eq_true] at hnv
  simp only [astGeneric, walk] at h
  cases hinit : d0.initOf with
  | none => simp [hinit] at h
  | some init =>
    simp only [hinit] at h
    refine ⟨init, ?_⟩
    have hnvinit : noVarDeclWalk init = true := by
      cases d0 with
      | VariableDeclarator id i =>
        cases i with
        | none => simp [AST.initOf] at hinit
        | some i0 =>
          simp [AST.initOf] at hinit
          subst hinit
          have := hnv.1
          simp only [noVarDeclWalk, Bool.and_eq_true] at this
          exact this.2
      | _ => simp [AST.initOf] at hinit
    cases hty : (if fn.isState "in-for-loop-init" then Except.ok (ε := JsError) (some "Integer")
                 else getType fuel fn init) with
    | error er => simp [hty] at h
    | ok ty0 =>
      simp only [hty] at h
      cases hty1 : (if ty0 = some "LiteralInteger" then some "Number" else ty0) with
      | none => simp [hty1] at h
      | some type =>
        simp only [hty1] at h
        cases hmk : List.lookup type fn.typeMap with
        | none => simp [hmk] at h
        | some markupType =>
          simp only [hmk] at h
          by_cases hm : markupType = ""
          · simp [if_pos hm] at h
          · rw [if_neg hm] at h
            cases hdep : getDependencies fuel fn (some init) [] false with
            | error er => simp [hdep] at h
            | ok p =>
              obtain ⟨l, r⟩ := p
              simp only [hdep] at h
              match r with
              | .str (some s) => simp at h
              | .str none => simp at h
              | .nullv => simp at h
              | .arrSelf =>
                refine ⟨type, l, ?_⟩
                cases hw1 : walk fuel
                    { fn with declarations :=
                        (d0.idNameOf.getD "undefined",
                          { type := type, dependencies := .arr l,
                            isSafe := l.all (·.isSafe) }) :: fn.declarations }
                    (.one init)
                    [.str (type ++ " user_" ++ d0.idNameOf.getD "undefined" ++ "=")] with
                | error er => simp [hw1] at h
                | ok q =>
                  obtain ⟨fnb, rb⟩ := q
                  simp only [hw1] at h
                  have e1 := walk_preserves_fn fuel _ (.one init) _ fnb rb hw1 hnvinit
                  cases hw2 : walk fuel fnb
                      (.varRest rest type) [.str (String.join (rb.map fragStr))] with
                  | error er => simp [hw2] at h
                  | ok w =>
                    obtain ⟨fnc, rc⟩ := w
                    simp only [hw2] at h
                    simp at h
                    obtain ⟨recs, hrecs, hall⟩ :=
                      varRest_records fuel rest type fnb _ fnc rc hw2 hnv.2
                    refine ⟨recs, rfl, rfl, ?_, hall⟩
                    rw [← h.1, hrecs, e1]

/-- Membership in a list satisfying `noUnsafeResetList` gives the
element predicate. -/
theorem noUnsafeResetList_mem {l : List AST} {a : AST}
    (h : noUnsafeResetList l = true) (ha : a ∈ l) : noUnsafeReset a = true := by
  induction l with
  | nil => cases ha
  | cons x rest ih =>
    simp only [noUnsafeResetList, Bool.and_eq_true] at h
    rcases List.mem_cons.mp ha with rfl | hmem
    · exact h.1
    · exact ih h.2 hmem

/-- In an unsafe context (`isNotSafe = true`), `getDependencies` only
appends records, and every appended record of origin `literal`,
`declaration` or `argument` carries `isSafe = false`, provided the
analyzed subtree contains no node that resets the flag
(`noUnsafeReset`). -/
theorem getDeps_unsafe_ctx (fuel : Nat) :
    ∀ (fn : FunctionNode) (call : DepCall) (deps deps2 : List Dependency) (r : DepRet),
      getDependenciesCore fuel fn call deps true = .ok (deps2, r) →
      (match call with
       | .one none => True
       | .one (some ast) => noUnsafeReset ast = true
       | .many asts => noUnsafeResetList asts = true) →
      ∃ tail, deps2 = deps ++ tail ∧
        ∀ dep ∈ tail,
          (dep.origin = "literal" ∨ dep.origin = "declaration" ∨ dep.origin = "argument") →
          dep.isSafe = false := by
  induction fuel with
  | zero => intro fn call deps deps2 r h _; simp [getDependenciesCore] at h
  | succ fuel ih =>
    intro fn call deps deps2 r h hok
    cases call with
    | many asts =>
      dsimp only at hok
      cases asts with
      | nil =>
        simp [getDependenciesCore] at h
        exact ⟨[], by simp [← h.1], by simp⟩
      | cons a rest =>
        simp only [noUnsafeResetList, Bool.and_eq_true] at hok
        simp only [getDependenciesCore] at h
        cases h1 : getDependenciesCore fuel fn (.one (some a)) deps true with
        | error er => simp [h1] at h
        | ok p =>
          obtain ⟨d1, r1⟩ := p
          simp only [h1] at h
          obtain ⟨t1, ht1, hs1⟩ := ih fn (.one (some a)) deps d1 r1 h1 hok.1
          obtain ⟨t2, ht2, hs2⟩ := ih fn (.many rest) d1 deps2 r h hok.2
          refine ⟨t1 ++ t2, by rw [ht2, ht1, List.append_assoc], ?_⟩
          intro dep hdep
          rcases List.mem_append.mp hdep with hm | hm
          · exact hs1 dep hm
          · exact hs2 dep hm
    | one oast =>
      cases oast with
      | none =>
        simp [getDependenciesCore] at h
        exact ⟨[], by simp [← h.1], by simp⟩
      | some ast =>
        dsimp only at hok
        cases ast with
        | Literal v =>
          simp [getDependenciesCore] at h
          refine ⟨[{ origin := "literal", value := some v, isSafe := false }],
            by simp [← h.1], ?_⟩
          intro dep hdep
          simp at hdep
          rw [hdep]
          intro hor
          rfl
        | VariableDeclarator id init =>
          cases init with
          | none =>
            simp only [getDependenciesCore] at h
            exact ih fn (.one none) deps deps2 r h trivial
          | some i =>
            simp only [noUnsafeReset] at hok
            simp only [getDependenciesCore] at h
            exact ih fn (.one (some i)) deps deps2 r h hok
        | Identifier nm =>
          simp only [getDependenciesCore] at h
          cases hl : List.lookup nm fn.declarations with
          | some decl =>
            simp only [hl] at h
            simp at h
            refine ⟨[{ name := some nm, origin := "declaration", isSafe := false }],
              by simp [← h.1], ?_⟩
            intro dep hdep
            simp at hdep
            rw [hdep]
            intro hor
            rfl
          | none =>
            simp only [hl] at h
            by_cases hc : fn.argumentNames.contains nm
            · rw [if_pos hc] at h
              simp at h
              refine ⟨[{ name := some nm, origin := "argument", isSafe := false }],
                by simp [← h.1], ?_⟩
              intro dep hdep
              simp at hdep
              rw [hdep]
              intro hor
              rfl
            · rw [if_neg hc] at h
              simp at h
              exact ⟨[], by simp [← h.1], by simp⟩
        | FunctionDeclaration body =>
          cases body with
          | BlockStatement stmts =>
            simp only [noUnsafeReset] at hok
            simp only [getDependenciesCore] at h
            cases hlast : stmts.getLast? with
            | none =>
              rw [hlast] at h
              exact ih fn (.one none) deps deps2 r h trivial
            | some last =>
              rw [hlast] at h
              have hmem : last ∈ stmts := by
                obtain ⟨hne, heq⟩ :=
                  List.mem_getLast?_eq_getLast (l := stmts) (x := last)
                    (by simp [hlast, Option.mem_def])
                rw [heq]
                exact List.getLast_mem hne
              exact ih fn (.one (some last)) deps deps2 r h (noUnsafeResetList_mem hok hmem)
          | Literal v => simp [getDependenciesCore] at h
          | Identifier n2 => simp [getDependenciesCore] at h
          | ThisExpression => simp [getDependenciesCore] at h
          | MemberExpression o p c => simp [getDependenciesCore] at h
          | CallExpression c args => simp [getDependenciesCore] at h
          | BinaryExpression op l rr => simp [getDependenciesCore] at h
          | LogicalExpression op l rr => simp [getDependenciesCore] at h
          | UnaryExpression op pre a => simp [getDependenciesCore] at h
          | UpdateExpression op pre a => simp [getDependenciesCore] at h
          | ConditionalExpression t c a => simp [getDependenciesCore] at h
          | SequenceExpression es => simp [getDependenciesCore] at h
          | ArrayExpression es => simp [getDependenciesCore] at h
          | AssignmentExpression op l rr => simp [getDependenciesCore] at h
          | ExpressionStatement e => simp [getDependenciesCore] at h
          | EmptyStatement => simp [getDependenciesCore] at h
          | DebuggerStatement => simp [getDependenciesCore] at h
          | ReturnStatement a => simp [getDependenciesCore] at h
          | IfStatement => simp [getDependenciesCore] at h
          | BreakStatement => simp [getDependenciesCore] at h
          | ContinueStatement => simp [getDependenciesCore] at h
          | ForStatement => simp [getDependenciesCore] at h
          | WhileStatement => simp [getDependenciesCore] at h
          | DoWhileStatement => simp [getDependenciesCore] at h
          | FunctionDeclaration b => simp [getDependenciesCore] at h
          | FunctionExpression b => simp [getDependenciesCore] at h
          | VariableDeclaration ds k => simp [getDependenciesCore] at h
          | VariableDeclarator i2 in2 => simp [getDependenciesCore] at h
        | UnaryExpression op pre a => simp [getDependenciesCore] at h
        | ReturnStatement a => simp [noUnsafeReset] at hok
        | BinaryExpression op l rr => simp [noUnsafeReset] at hok
        | ArrayExpression es => simp [noUnsafeReset] at hok
        | UpdateExpression op pre a =>
          simp only [noUnsafeReset] at hok
          simp only [getDependenciesCore] at h
          exact ih fn (.one (some a)) deps deps2 r h hok
        | VariableDeclaration ds k =>
          simp only [noUnsafeReset] at hok
          simp only [getDependenciesCore] at h
          exact ih fn (.many ds) deps deps2 r h hok
        | CallExpression c args =>
          simp [getDependenciesCore] at h
          refine ⟨[{ origin := "function", isSafe := true }], by simp [← h.1], ?_⟩
          intro dep hdep
          simp at hdep
          rw [hdep]
          intro hor
          simp at hor
        | MemberExpression o p c =>
          simp only [getDependenciesCore] at h
          cases hd : getMemberExpressionDetails fn (.MemberExpression o p c) with
          | error er => simp [hd] at h
          | ok dopt =>
            cases dopt with
            | some d =>
              simp only [hd] at h
              simp at h
              exact ⟨[], by simp [← h.1], by simp⟩
            | none => simp [hd] at h
        | LogicalExpression op l rr => simp [getDependenciesCore] at h
        | ConditionalExpression t c a => simp [getDependenciesCore] at h
        | SequenceExpression es => simp [getDependenciesCore] at h
        | AssignmentExpression op l rr => simp [getDependenciesCore] at h
        | ExpressionStatement e => simp [getDependenciesCore] at h
        | EmptyStatement => simp [getDependenciesCore] at h
        | DebuggerStatement => simp [getDependenciesCore] at h
        | ThisExpression => simp [getDependenciesCore] at h
        | BlockStatement b => simp [getDependenciesCore] at h
        | IfStatement => simp [getDependenciesCore] at h
        | BreakStatement => simp [getDependenciesCore] at h
        | ContinueStatement => simp [getDependenciesCore] at h
        | ForStatement => simp [getDependenciesCore] at h
        | WhileStatement => simp [getDependenciesCore] at h
        | DoWhileStatement => simp [getDependenciesCore] at h
        | FunctionExpression b => simp [getDependenciesCore] at h

/-- Claim C3 (amended): When a binary expression's operator is `*` or `/`,
both operands are analyzed with the contextual `isNotSafe` flag set, and
every `literal`, `declaration` or `identifier`(-resolved) dependency
collected from an operand subtree that contains no further binary
expression, return statement or array literal has `isSafe = false`.  (A
nested binary expression recomputes the flag from its own operator, a
return statement drops it, and an array literal pushes an
unconditionally safe record — see the counterexample.) -/
theorem getDependencies_mul_div_unsafe (fuel : Nat) (fn : FunctionNode)
    (op : String) (l r : AST) (deps deps2 : List Dependency)
    (isNotSafe : Bool) (rv : DepRet)
    (hop : op = "*" ∨ op = "/")
    (h : getDependencies (fuel + 1) fn (some (.BinaryExpression op l r)) deps isNotSafe =
      .ok (deps2, rv))
    (hl : noUnsafeReset l = true) (hr : noUnsafeReset r = true) :
    ∃ tail, deps2 = deps ++ tail ∧
      ∀ dep ∈ tail,
        (dep.origin = "literal" ∨ dep.origin = "declaration" ∨ dep.origin = "argument") →
        dep.isSafe = false := by
  have hflag : (decide (op = "/" ∨ op = "*")) = true := by
    rcases hop with rfl | rfl <;> rfl
  simp only [getDependencies, getDependenciesCore] at h
  rw [hflag] at h
  cases h1 : getDependenciesCore fuel fn (.one (some l)) deps true with
  | error er => simp [h1] at h
  | ok p =>
    obtain ⟨d1, r1⟩ := p
    simp only [h1] at h
    cases h2 : getDependenciesCore fuel fn (.one (some r)) d1 true with
    | error er => simp [h2] at h
    | ok q =>
      obtain ⟨d2, r2⟩ := q
      simp only [h2] at h
      simp at h
      obtain ⟨t1, ht1, hs1⟩ := getDeps_unsafe_ctx fuel fn (.one (some l)) deps d1 r1 h1 hl
      obtain ⟨t2, ht2, hs2⟩ := getDeps_unsafe_ctx fuel fn (.one (some r)) d1 d2 r2 h2 hr
      refine ⟨t1 ++ t2, by rw [← h.1, ht2, ht1, List.append_assoc], ?_⟩
      intro dep hdep
      rcases List.mem_append.mp hdep with hm | hm
      · exact hs1 dep hm
      · exact hs2 dep hm

/-- The function `splitNl` never returns the empty list. -/
theorem splitNl_ne_nil (cs : List Char) : splitNl cs ≠ [] := by
  cases cs with
  | nil => simp [splitNl]
  | cons c rest =>
    by_cases hc : c = '\n'
    · simp [splitNl, hc]
    · simp only [splitNl, if_neg hc]
      cases splitNl rest <;> simp

/-- The number of chunks `splitNl` produces is one more than the number
of newlines. -/
theorem splitNl_length (cs : List Char) : (splitNl cs).length = cs.count '\n' + 1 := by
  induction cs with
  | nil => rfl
  | cons c rest ih =>
    by_cases hc : c = '\n'
    · subst hc
      simp [splitNl, List.count_cons, ih]
    · simp only [splitNl, if_neg hc]
      cases hs : splitNl rest with
      | nil => exact absurd hs (splitNl_ne_nil rest)
      | cons l ls =>
        simp only [List.length_cons]
        rw [← List.length_cons l ls, ← hs, ih]
        simp [List.count_cons, hc]

/-- A list with no newline is untouched by `afterLastNl`. -/
theorem afterLastNl_of_not_contains {cs : List Char} (h : cs.contains '\n' = false) :
    afterLastNl cs = cs := by
  induction cs with
  | nil => rfl
  | cons c rest ih =>
    have hmem : ¬ '\n' ∈ (c :: rest) := by simpa using h
    have hc : ¬ c = '\n' := fun hcc => hmem (by simp [hcc])
    have hrest : rest.contains '\n' = false := by
      simpa using fun hm => hmem (List.mem_cons_of_mem c hm)
    rw [show afterLastNl (c :: rest) =
      (if rest.contains '\n' then afterLastNl rest
       else if c = '\n' then rest else c :: rest) from rfl]
    rw [hrest]
    simp [hc]

/-- The last chunk of `splitNl` is the text after the last newline. -/
theorem splitNl_getLastD (cs : List Char) : (splitNl cs).getLastD [] = afterLastNl cs := by
  induction cs with
  | nil => rfl
  | cons c rest ih =>
    by_cases hc : c = '\n'
    · subst hc
      rw [show splitNl ('\n' :: rest) = [] :: splitNl rest from by simp [splitNl]]
      rw [List.getLastD_cons]
      rw [show afterLastNl ('\n' :: rest) =
        (if rest.contains '\n' then afterLastNl rest else rest) from by
          rw [show afterLastNl ('\n' :: rest) =
            (if rest.contains '\n' then afterLastNl rest
             else if '\n' = '\n' then rest else '\n' :: rest) from rfl]
          simp]
      by_cases hr : rest.contains '\n'
      · rw [if_pos hr]
        exact ih
      · rw [if_neg hr, ih]
        exact afterLastNl_of_not_contains (by simpa using hr)
    · rw [show splitNl (c :: rest) =
        (match splitNl rest with
         | [] => [[c]]
         | l :: ls => (c :: l) :: ls) from by simp [splitNl, hc]]
      rw [show afterLastNl (c :: rest) =
        (if rest.contains '\n' then afterLastNl rest else c :: rest) from by
          rw [show afterLastNl (c :: rest) =
            (if rest.contains '\n' then afterLastNl rest
             else if c = '\n' then rest else c :: rest) from rfl]
          simp [hc]]
      cases hs : splitNl rest with
      | nil => exact absurd hs (splitNl_ne_nil rest)
      | cons l ls =>
        cases ls with
        | nil =>
          -- a single chunk: the rest holds no newline
          have hcount : rest.count '\n' + 1 = 1 := by
            rw [← splitNl_length rest, hs]
            rfl
          have hnomem : ¬ '\n' ∈ rest := by
            rw [← List.count_pos_iff]
            omega
          have hrest : rest.contains '\n' = false := by simpa using hnomem
          have hl : l = rest := by
            have hh := ih
            rw [hs] at hh
            simp only [List.getLastD_cons, List.getLastD_nil] at hh
            rw [hh]
            exact afterLastNl_of_not_contains hrest
          rw [if_neg (by rw [hrest]; simp), hl]
          simp [List.getLastD_cons]
        | cons l2 ls2 =>
          -- at least two chunks: the rest holds a newline
          have hcount : rest.count '\n' + 1 = ls2.length + 2 := by
            rw [← splitNl_length rest, hs]
            simp
          have hmem : '\n' ∈ rest := by
            rw [← List.count_pos_iff]
            omega
          have hrest : rest.contains '\n' = true := by simpa using hmem
          rw [if_pos hrest, ← ih, hs]
          simp [List.getLastD_cons]

/-- Claim C5 (amended): For a textual source, `astErrorOutput` reports a
line number equal to **one plus the number of newlines at or after the
node's start offset** (the number of source lines from the start offset
to the end of the source), and a position equal to the length of the
text **after the last newline at or after the start offset** (the whole
remaining text when no such newline exists); the diagnostic carries the
offending AST substring. -/
theorem astErrorOutput_spec (error source : String) (start stop : Nat) :
    astErrorOutput error source start stop =
      error ++ " on line " ++
        toString (((source.toList).drop start).count '\n' + 1) ++ ", position " ++
        toString ((afterLastNl ((source.toList).drop start)).length) ++ ":\n " ++
        getAstString source start stop := by
  unfold astErrorOutput
  dsimp only
  rw [splitNl_length, splitNl_getLastD]

/-- Claim C5 (counterexample): On the source `"a\nb\nc"` with a node
starting at offset 4 (the final line's only character), the claim
prescribes line 3, column 0, but `astErrorOutput` reports line 1,
position 1: the source splits the **trailing** text
(`this.source.substr(ast.start)`), not the leading text. -/
theorem astErrorOutput_claim_counterexample :
    claimLineOf "a\nb\nc" 4 = 3 ∧ claimColumnOf "a\nb\nc" 4 = 0 ∧
    astErrorOutput "E" "a\nb\nc" 4 5 = "E on line 1, position 1:\n c" ∧
    astErrorOutput "E" "a\nb\nc" 4 5 ≠
      "E on line " ++ toString (claimLineOf "a\nb\nc" 4) ++ ", position " ++
        toString (claimColumnOf "a\nb\nc" 4) ++ ":\n " ++
        getAstString "a\nb\nc" 4 5 := by
  refine ⟨rfl, rfl, rfl, ?_⟩
  intro hcontra
  simp [claimLineOf, claimColumnOf] at hcontra
  cases hcontra

/-- A validated instance has function-text source. -/
theorem validate_isFunctionString {fn : FunctionNode} (h : validate fn = none) :
    isFunctionString fn.source = true := by
  by_cases h1 : isFunctionString fn.source
  · exact h1
  · simp [validate, h1] at h

/-- Function text is nonempty. -/
theorem isFunctionString_ne_empty {s : String} (h : isFunctionString s = true) :
    s ≠ "" := by
  intro he
  rw [he] at h
  exact absurd h (by decide)

/-- Rebuilding a constructed instance from its own serialized settings
reproduces it field for field. -/
theorem buildNode_roundtrip (src : String) (s : Settings) :
    buildNode (buildNode src s).source (toJSONsettings (buildNode src s)) =
      buildNode src s := by
  simp only [buildNode, toJSONsettings]
  cases hrt : s.returnType with
  | none => simp
  | some r => by_cases hr : r = "" <;> simp [hr]

/-- Claim C6: For every successfully constructed Function Unit `U`,
constructing a new unit from the source and settings of
`U.toJSON().settings` succeeds and reproduces `U` (in this embedding the
rebuilt unit is equal to `U`, so in particular all serialized public
fields — name, constants, constantTypes, isRootKernel, isSubKernel,
debug, output, loopMaxIterations, argumentNames, argumentTypes,
argumentSizes, returnType — agree). -/
theorem construct_toJSON_roundtrip (src : String) (s : Settings) (U : FunctionNode)
    (h : construct src s = .ok U) :
    construct U.source (toJSONsettings U) = .ok U := by
  unfold construct at h
  by_cases hsrc : src = ""
  · simp [hsrc] at h
  · rw [if_neg hsrc] at h
    cases hv : validate (buildNode src s) with
    | some e => simp [hv] at h
    | none =>
      simp only [hv] at h
      have hU : buildNode src s = U := by simpa using h
      have hfs : isFunctionString U.source = true := by
        rw [← hU]
        exact validate_isFunctionString hv
      have hne : U.source ≠ "" := isFunctionString_ne_empty hfs
      unfold construct
      rw [if_neg hne]
      have heta : buildNode U.source (toJSONsettings U) = U := by
        rw [← hU]
        exact buildNode_roundtrip src s
      rw [heta]
      dsimp only
      rw [show validate U = none from hU ▸ hv]

/-! ### Claim theorems -/

/-- Claim C1 (counterexample): On `let a = 1, b = 2;` the record stored
for the second declarator `b` has a single dependency with
`isSafe = true` (the finite literal `2`), so the logical AND of its
dependencies' flags is `true`, yet the record's own `isSafe` is `false`:
the claimed invariant fails for second declarators. -/
theorem declaration_record_isSafe_counterexample :
    astGeneric 9 fnFloatMap (.VariableDeclaration [declA, declB] "let") [] =
      .ok (fnLetAB, [.selfRef, .str "Number user_a=,=", .str ";"]) ∧
    List.lookup "b" fnLetAB.declarations = some recB ∧
    isSafeDependencies recB.dependencies = true ∧
    recB.isSafe = false :=
  ⟨rfl, rfl, rfl, rfl⟩

/-- Claim C1 (witness): The amended record theorem applied to
`let a = 1, b = 2;`. -/
theorem astVariableDeclaration_record_isSafe_witness :
    ∃ (init : AST) (t : String) (l : List Dependency)
      (recs : List (String × Declaration)),
      AST.initOf declA = some init ∧
      getDependencies 8 fnFloatMap (some init) [] false = .ok (l, .arrSelf) ∧
      fnLetAB.declarations =
        recs ++ ((AST.idNameOf declA).getD "undefined",
          { type := t, dependencies := .arr l, isSafe := l.all (·.isSafe) }) ::
          fnFloatMap.declarations ∧
      (∀ p ∈ recs, p.2.isSafe = false) :=
  astVariableDeclaration_record_isSafe 8 fnFloatMap declA [declB] "let" []
    fnLetAB [.selfRef, .str "Number user_a=,=", .str ";"] (by rfl)
    (by simp [noVarDeclWalkList, noVarDeclWalk])

/-- Claim C2: Evaluation of the type oracle at the claim's own scenario:
on `function(){ return Math.floor(1.5); }` (and on the bare call
`Math.floor(1.5)`) `getType` yields `Number`, not the claimed `Integer`.
The `ceil`/`floor`/`round` → `Integer` specialization sits in the
`MemberExpression` arm of `getType` behind `isAstMathFunction`, a
predicate that requires a `CallExpression` node and is therefore false
on every member expression, so the specialization is unreachable: the
`CallExpression` arm returns `Number` for every recognized math
intrinsic. -/
theorem getType_math_floor_call_yields_number :
    getType 9 {} mathFloorKernelAST = .ok (some "Number") ∧
    getType 9 {} mathFloorCallAST = .ok (some "Number") ∧
    isAstMathFunction mathFloorCallAST = true ∧
    isAstMathFunction (.MemberExpression (.Identifier "Math") (.Identifier "floor") false) =
      false :=
  ⟨rfl, rfl, rfl, rfl⟩

/-- Claim C3 (counterexample): Analyzing `1 * (2 + 3)`: the literal `1`
(an immediate operand of `*`) is collected with `isSafe = false`, but
the literals `2` and `3` — nested under the `+` inside the
multiplication subtree — are collected with `isSafe = true`, because the
`BinaryExpression` case **reassigns** the contextual flag from its own
operator instead of inheriting it. -/
theorem getDependencies_mul_nested_plus_counterexample :
    getDependencies 9 {} (some mulPlusAST) [] false =
      .ok ([{ origin := "literal", value := some (.val 1), isSafe := false },
            { origin := "literal", value := some (.val 2), isSafe := true },
            { origin := "literal", value := some (.val 3), isSafe := true }], .arrSelf) ∧
    ({ origin := "literal", value := some (.val 2), isSafe := true } : Dependency).origin =
      "literal" ∧
    ({ origin := "literal", value := some (.val 2), isSafe := true } : Dependency).isSafe =
      true :=
  ⟨rfl, rfl, rfl⟩

/-- Claim C3 (witness): The amended unsafe-context theorem applied to
`1 * 2`. -/
theorem getDependencies_mul_div_unsafe_witness :
    ∃ tail,
      [{ origin := "literal", value := some (.val 1), isSafe := false },
       { origin := "literal", value := some (.val 2), isSafe := false }] =
        ([] : List Dependency) ++ tail ∧
      ∀ dep ∈ tail,
        (dep.origin = "literal" ∨ dep.origin = "declaration" ∨ dep.origin = "argument") →
        dep.isSafe = false :=
  getDependencies_mul_div_unsafe 8 {} "*" (.Literal (.val 1)) (.Literal (.val 2))
    []
    [{ origin := "literal", value := some (.val 1), isSafe := false },
     { origin := "literal", value := some (.val 2), isSafe := false }]
    false .arrSelf (Or.inl rfl) (by rfl)
    (by simp [noUnsafeReset]) (by simp [noUnsafeReset])

/-- Claim C4: Evaluation of the variable-declaration handler on
`let x = 1.5;` with a backend `typeMap` lowering `Number` to `float`:
the emitted fragment interpolates the **raw inferred type**
(`Number user_x=`), not the typeMap entry `float` (`markupType` is
computed only for the existence check), and the handler pushes the
buffer **itself** as an extra element (`retArr.push(retArr, ...)`)
before the joined result and the semicolon. -/
theorem astVariableDeclaration_emission :
    astGeneric 9 fnFloatMap letX15AST [] =
      .ok ({ typeMap := [("Number", "float")], declarations := [("x", recX15)] },
        [.selfRef, .str "Number user_x=", .str ";"]) ∧
    List.lookup "Number" fnFloatMap.typeMap = some "float" ∧
    ([.selfRef, .str "Number user_x=", .str ";"] : List Frag) ≠
      [.str "float user_x=", .str ";"] :=
  ⟨rfl, rfl, by decide⟩

/-- Claim C7: Evaluation of the sequence handler on a two-element
sequence: each loop iteration recurses on the **whole** `expressions`
array (`this.astGeneric(sNode.expressions, retArr)`), so every
sub-expression is emitted once per iteration — the output is
`- + , - +` instead of the comma-joined single emissions `- , +`. -/
theorem astSequenceExpression_duplicates :
    astGeneric 9 {} seqTwoAST [] =
      .ok ({}, [.str "-", .str "+", .str ",", .str "-", .str "+"]) ∧
    ([.str "-", .str "+", .str ",", .str "-", .str "+"] : List Frag) ≠
      [.str "-", .str ",", .str "+"] :=
  ⟨rfl, by decide⟩

/-- Claim C8: Popping the traversal-state stack with a label that is not
the current top raises the `Cannot popState` error (leaving no modified
stack behind); popping with the matching label removes exactly the top
element. -/
theorem popState_spec (states : List String) (label : String) :
    (states.getLast? ≠ some label →
      popState label states = .error ("Cannot popState " ++ label ++ " when in " ++
        (match states.getLast? with
         | some t => t
         | none => "undefined"))) ∧
    (states.getLast? = some label →
      popState label states = .ok states.dropLast) := by
  constructor
  · intro hne
    rw [popState, if_pos hne]
  · intro heq
    rw [popState, if_neg (by simp [heq])]

/-- Claim C8 (witness): `popState` applied to a mismatched and a matching
top label. -/
theorem popState_spec_witness :
    popState "a" ["b"] = .error "Cannot popState a when in b" ∧
    popState "b" ["a", "b"] = .ok ["a"] :=
  ⟨(popState_spec ["b"] "a").1 (by decide), (popState_spec ["a", "b"] "b").2 (by decide)⟩

/-- Claim C9: A variable-declaration node with an empty declarator list,
or whose first declarator has no initializer, makes the handler throw
the `Unexpected expression` diagnostic (carrying the offending node);
since the check precedes every buffer push and table write, nothing is
emitted and no declaration is recorded. -/
theorem astVariableDeclaration_unexpected (fuel : Nat) (fn : FunctionNode)
    (ds : List AST) (kind : String) (retArr : List Frag)
    (h : (ds.head? >>= AST.initOf) = none) :
    astGeneric (fuel + 1) fn (.VariableDeclaration ds kind) retArr =
      .error (.astError "Unexpected expression" (.VariableDeclaration ds kind)) := by
  cases ds with
  | nil => rfl
  | cons d rest =>
    have h2 : d.initOf = none := by simpa using h
    simp [astGeneric, walk, h2]

/-- Claim C9 (witness): The handler applied to `let x;`. -/
theorem astVariableDeclaration_unexpected_witness :
    astGeneric 5 {} (.VariableDeclaration [.VariableDeclarator (.Identifier "x") none] "let")
      [] =
      .error (.astError "Unexpected expression"
        (.VariableDeclaration [.VariableDeclarator (.Identifier "x") none] "let")) :=
  astVariableDeclaration_unexpected 4 {} [.VariableDeclarator (.Identifier "x") none]
    "let" [] (by rfl)

/-- Claim C10: `getDependencies` on a member expression: when
`getMemberExpressionDetails` produces a descriptor, no dependency record
is appended and the call returns the descriptor's `type` field instead
of the dependency array; when it produces no descriptor, the call
raises the `Unhandled type ... in getAllVariables` diagnostic. -/
theorem getDependencies_member_expression (fuel : Nat) (fn : FunctionNode)
    (m : AST) (deps : List Dependency) (isNotSafe : Bool) :
    (∀ d : Details, getMemberExpressionDetails fn m = .ok (some d) →
      getDependencies (fuel + 1) fn (some m) deps isNotSafe = .ok (deps, .str d.type)) ∧
    (getMemberExpressionDetails fn m = .ok none →
      getDependencies (fuel + 1) fn (some m) deps isNotSafe =
        .error (.astError "Unhandled type MemberExpression in getAllVariables" m)) := by
  constructor
  · intro d hd
    cases m
    case MemberExpression o p c =>
      rw [getDependencies, getDependenciesCore]
      rw [hd]
    all_goals exact Except.noConfusion hd
  · intro hd
    cases m
    case MemberExpression o p c =>
      rw [getDependencies, getDependenciesCore]
      rw [hd]
    all_goals exact Except.noConfusion hd

/-- Claim C10 (witness): The member-expression rule applied to
`this.thread.x`. -/
theorem getDependencies_member_expression_witness :
    getDependencies 5 {} (some threadXAST) [] false = .ok ([], .str (some "Integer")) :=
  (getDependencies_member_expression 4 {} threadXAST [] false).1
    { signature := "this.thread.value", type := some "Integer", name := some "x" }
    (by rfl)


/-- Claim C6 (witness): The round-trip law applied to a concretely
constructed unit. -/
theorem construct_toJSON_roundtrip_witness :
    construct (buildNode c6src c6settings).source
      (toJSONsettings (buildNode c6src c6settings)) =
      .ok (buildNode c6src c6settings) :=
  construct_toJSON_roundtrip c6src c6settings (buildNode c6src c6settings) (by rfl)
